import Mathlib

/-!
Shallow embedding of the GovSniper tender pipeline (Python sources under
`src/`) used to check the natural-language specification against the code.

Strings are modelled as `List Char`; Python `Decimal`/`float` prices are
modelled as `ℚ`; nullable columns as `Option`; database tables as lists of
rows. External collaborators (HTTP fetches, the AI model, the mail
provider) enter as explicit parameters or oracles, mirroring the points
where the Python code awaits them.
-/

namespace GovSniper

/-- Python `str.lower` restricted to the alphabets this repository's
filters compare (ASCII letters and the Russian Cyrillic block incl. Ё),
which is what `title.lower()` touches in the scraper / notification /
losers services. -/
def pyLowerChar (c : Char) : Char :=
  if 'A' ≤ c ∧ c ≤ 'Z' then Char.ofNat (c.toNat + 32)
  else if 'А' ≤ c ∧ c ≤ 'Я' then Char.ofNat (c.toNat + 32)
  else if c = 'Ё' then 'ё'
  else c

/-- `str.lower` over a whole string. -/
def pyLower (s : List Char) : List Char := s.map pyLowerChar

/-- Occurrence test of `sub` at position `p` of `s`. -/
def matchesAt (s sub : List Char) (p : Nat) : Bool :=
  decide ((s.drop p).take sub.length = sub)

/-- Python substring test `sub in s`: `sub` occurs at some position. -/
def strContains (s sub : List Char) : Bool :=
  (List.range (s.length + 1)).any (matchesAt s sub)

/-- Tender lifecycle enum from `src/models/tender.py`. -/
inductive TenderStatus where
  | NEW
  | DOWNLOADED
  | ANALYZED
  | NOTIFIED
  | SOLD
deriving DecidableEq, Repr

/-- Position of a status along the pipeline chain
`NEW → DOWNLOADED → ANALYZED → NOTIFIED → SOLD`. -/
def statusRank : TenderStatus → Nat
  | .NEW => 0
  | .DOWNLOADED => 1
  | .ANALYZED => 2
  | .NOTIFIED => 3
  | .SOLD => 4

/-- A row of the `tenders` table (`src/models/tender.py`), with the columns
the verified services read or write. -/
structure Tender where
  id : Nat
  external_id : List Char
  title : List Char
  url : List Char
  price : Option ℚ
  customer_name : Option (List Char)
  status : TenderStatus
  raw_text : Option (List Char)
  risk_score : Option ℤ
  margin_estimate : Option (List Char)
  teaser_description : Option (List Char)
  deep_analysis : Option (List Char)
  deadline : Option Nat
  created_at : Nat
deriving DecidableEq, Repr

/-- A parsed RSS entry (`ScraperService.fetch_rss` result items). -/
structure RSSEntry where
  external_id : List Char
  title : List Char
  url : List Char
  price : Option ℚ
  customer_name : Option (List Char)
deriving DecidableEq, Repr

/-- `ScraperService._should_skip` (src/services/scraper_service.py:124).
`stopWords` are the configured stop words; the service lowercases them at
construction time (`__init__`) and the check is a case-insensitive
substring test on the lowercased title, plus the price-floor test
`price is not None and price < min_price`. -/
def should_skip (stopWords : List (List Char)) (minPrice : ℚ)
    (title : List Char) (price : Option ℚ) : Bool :=
  (stopWords.any fun w => strContains (pyLower title) (pyLower w)) ||
    (match price with
     | some p => decide (p < minPrice)
     | none => false)

/-- The `Tender(...)` constructed for a fresh entry in
`ScraperService.process_feed` (status `NEW`, analysis fields unset). -/
def newTenderOfEntry (e : RSSEntry) : Tender :=
  { id := 0
    external_id := e.external_id
    title := e.title
    url := e.url
    price := e.price
    customer_name := e.customer_name
    status := .NEW
    raw_text := none
    risk_score := none
    margin_estimate := none
    teaser_description := none
    deep_analysis := none
    deadline := none
    created_at := 0 }

/-- One iteration of the `for entry in entries` loop of
`ScraperService.process_feed` (src/services/scraper_service.py:213):
filtered entries and entries whose `external_id` already exists are
skipped; otherwise one new `NEW` tender row is added and the counter
increments. -/
def processEntry (stopWords : List (List Char)) (minPrice : ℚ)
    (db : List Tender) (e : RSSEntry) : List Tender × Nat :=
  if should_skip stopWords minPrice e.title e.price then (db, 0)
  else if db.any fun t => t.external_id = e.external_id then (db, 0)
  else (db ++ [newTenderOfEntry e], 1)

/-- The loop body of `process_feed` over the `(table, count)` accumulator. -/
def feedStep (stopWords : List (List Char)) (minPrice : ℚ)
    (acc : List Tender × Nat) (e : RSSEntry) : List Tender × Nat :=
  let step := processEntry stopWords minPrice acc.1 e
  (step.1, acc.2 + step.2)

/-- `ScraperService.process_feed` over an already-fetched entry list:
folds the per-entry step and returns the final table plus the count of
inserted rows. -/
def process_feed (stopWords : List (List Char)) (minPrice : ℚ)
    (db : List Tender) (entries : List RSSEntry) : List Tender × Nat :=
  entries.foldl (feedStep stopWords minPrice) (db, 0)

lemma processEntry_mem {sw : List (List Char)} {mp : ℚ} {db : List Tender}
    {e : RSSEntry} {t : Tender} (h : t ∈ db) :
    t ∈ (processEntry sw mp db e).1 := by
  unfold processEntry
  split
  · exact h
  · split
    · exact h
    · exact List.mem_append_left _ h

lemma feed_foldl_mem {sw : List (List Char)} {mp : ℚ} {t : Tender}
    (es : List RSSEntry) (acc : List Tender × Nat) (h : t ∈ acc.1) :
    t ∈ (es.foldl (feedStep sw mp) acc).1 := by
  induction es generalizing acc with
  | nil => exact h
  | cons e es ih => exact ih _ (processEntry_mem h)

lemma processEntry_of_dup {sw : List (List Char)} {mp : ℚ}
    {db : List Tender} {e : RSSEntry}
    (h : ∃ t ∈ db, t.external_id = e.external_id) :
    processEntry sw mp db e = (db, 0) := by
  unfold processEntry
  have hany : (db.any fun t => t.external_id = e.external_id) = true := by
    obtain ⟨t, ht, hid⟩ := h
    exact List.any_eq_true.2 ⟨t, ht, decide_eq_true hid⟩
  split
  · rfl
  · simp [hany]

lemma feedStep_of_dup {sw : List (List Char)} {mp : ℚ}
    {acc : List Tender × Nat} {e : RSSEntry}
    (h : ∃ t ∈ acc.1, t.external_id = e.external_id) :
    feedStep sw mp acc e = acc := by
  simp [feedStep, processEntry_of_dup h]

/-- C8: `_should_skip`-driven filtering in feed ingestion. A title
containing a stop word (case-insensitively) is rejected; a known price
strictly below the floor is rejected; an entry with unknown price and no
stop word passes the filter, and is inserted when its external id is
fresh. -/
theorem filter_correctness (sw : List (List Char)) (mp : ℚ) (e : RSSEntry)
    (db : List Tender) :
    ((∃ w ∈ sw, strContains (pyLower e.title) (pyLower w) = true) →
      should_skip sw mp e.title e.price = true ∧
        processEntry sw mp db e = (db, 0)) ∧
    (∀ p : ℚ, e.price = some p → p < mp →
      should_skip sw mp e.title e.price = true ∧
        processEntry sw mp db e = (db, 0)) ∧
    (e.price = none →
      (∀ w ∈ sw, strContains (pyLower e.title) (pyLower w) = false) →
      should_skip sw mp e.title e.price = false ∧
        ((¬ ∃ t ∈ db, t.external_id = e.external_id) →
          processEntry sw mp db e = (db ++ [newTenderOfEntry e], 1))) := by
  refine ⟨?_, ?_, ?_⟩
  · intro hstop
    have hskip : should_skip sw mp e.title e.price = true := by
      unfold should_skip
      obtain ⟨w, hw, hc⟩ := hstop
      exact Bool.or_eq_true_iff.2 (Or.inl (List.any_eq_true.2 ⟨w, hw, hc⟩))
    exact ⟨hskip, by unfold processEntry; simp [hskip]⟩
  · intro p hp hlt
    have hskip : should_skip sw mp e.title e.price = true := by
      unfold should_skip
      rw [hp]
      simp [hlt]
    exact ⟨hskip, by unfold processEntry; simp [hskip]⟩
  · intro hnone hnostop
    have hskip : should_skip sw mp e.title e.price = false := by
      unfold should_skip
      rw [hnone]
      simp only [Bool.or_eq_false_iff]
      refine ⟨?_, by trivial⟩
      rw [List.any_eq_false]
      intro w hw
      simp [hnostop w hw]
    refine ⟨hskip, fun hfresh => ?_⟩
    have hany : (db.any fun t => t.external_id = e.external_id) = false := by
      rw [List.any_eq_false]
      intro t ht hteq
      exact hfresh ⟨t, ht, of_decide_eq_true hteq⟩
    unfold processEntry
    simp [hskip, hany]

/-- Witness for `filter_correctness` at concrete inputs: a stop-worded
title is skipped, a below-floor price is skipped, and an unknown-price
entry with a clean title is inserted. -/
theorem filter_correctness_witness :
    (should_skip ["тест".toList] 100000
        ("Ремонт ТЕСТ зданий".toList) none = true) ∧
    (should_skip ["тест".toList] 100000
        ("Поставка бумаги".toList) (some 500) = true) ∧
    (should_skip ["тест".toList] 100000
        ("Поставка бумаги".toList) none = false ∧
      processEntry ["тест".toList] 100000 []
        ⟨"123".toList, "Поставка бумаги".toList, "u".toList, none, none⟩ =
        ([newTenderOfEntry
          ⟨"123".toList, "Поставка бумаги".toList, "u".toList, none, none⟩],
          1)) := by
  refine ⟨?_, ?_, ?_⟩
  · exact ((filter_correctness ["тест".toList] 100000
      ⟨"123".toList, "Ремонт ТЕСТ зданий".toList, "u".toList, none, none⟩
      []).1 (by decide)).1
  · exact ((filter_correctness ["тест".toList] 100000
      ⟨"123".toList, "Поставка бумаги".toList, "u".toList, some 500, none⟩
      []).2.1 500 rfl (by norm_num)).1
  · have h := (filter_correctness ["тест".toList] 100000
      ⟨"123".toList, "Поставка бумаги".toList, "u".toList, none, none⟩
      []).2.2 rfl (by decide)
    exact ⟨h.1, (h.2 (by simp)).symm ▸ rfl⟩

/-- C9: idempotent ingestion. If an entry's external id is already present
in the table, running the feed with that entry is identical (final table,
every row's fields, and insert count) to running it without the entry. -/
theorem ingest_duplicate_noop (sw : List (List Char)) (mp : ℚ)
    (db : List Tender) (es₁ es₂ : List RSSEntry) (e : RSSEntry)
    (h : ∃ t ∈ db, t.external_id = e.external_id) :
    process_feed sw mp db (es₁ ++ e :: es₂) =
      process_feed sw mp db (es₁ ++ es₂) := by
  unfold process_feed
  rw [List.foldl_append, List.foldl_append, List.foldl_cons]
  congr 1
  obtain ⟨t, ht, hid⟩ := h
  have hmem : t ∈ (es₁.foldl (feedStep sw mp) (db, 0)).1 :=
    feed_foldl_mem es₁ (db, 0) ht
  exact feedStep_of_dup ⟨t, hmem, hid⟩

/-- Witness for `ingest_duplicate_noop`: a one-row table and a duplicate
entry; re-ingesting it equals ingesting nothing. -/
theorem ingest_duplicate_noop_witness :
    process_feed [] 0 [newTenderOfEntry
        ⟨"42".toList, "Поставка".toList, "u".toList, none, none⟩]
      [⟨"42".toList, "Поставка дубликат".toList, "v".toList, none, none⟩] =
    process_feed [] 0 [newTenderOfEntry
        ⟨"42".toList, "Поставка".toList, "u".toList, none, none⟩] [] :=
  ingest_duplicate_noop [] 0 _ [] [] _
    ⟨newTenderOfEntry ⟨"42".toList, "Поставка".toList, "u".toList, none, none⟩,
      by simp, by decide⟩

/-- Result triple of `AIService.analyze_teaser`
(dataclass `TeaserAnalysis` in src/services/ai_service.py). -/
structure TeaserAnalysis where
  risk_score : ℤ
  margin_estimate : List Char
  description : List Char
deriving DecidableEq, Repr

/-- The parsed JSON object of a successful teaser model call. A field is
`none` when the key is missing from the response; `risk_score` carries the
already-`int()`-converted value (a response whose `risk_score` cannot be
converted raises inside the `try` block and is modelled as a failed
call). -/
structure TeaserResponse where
  risk_score : Option ℤ
  margin_estimate : Option (List Char)
  description : Option (List Char)
deriving DecidableEq, Repr

/-- The fixed safe-default triple returned by `analyze_teaser` when the
model call (or response parsing) fails. -/
def teaserSafeDefault : TeaserAnalysis :=
  { risk_score := 50
    margin_estimate := "требует анализа".toList
    description :=
      "Автоматический анализ недоступен. Требуется ручная проверка.".toList }

/-- `AIService.analyze_teaser` (src/services/ai_service.py:120). The model
call and JSON parse are the `call` argument: `.error` is any exception in
the `try` block, `.ok` the parsed response object. On success the risk
score is `min(100, max(0, result.get("risk_score", 50)))` and missing
text fields get fixed defaults. -/
def analyze_teaser (call : Except Unit TeaserResponse) : TeaserAnalysis :=
  match call with
  | .error _ => teaserSafeDefault
  | .ok r =>
    { risk_score := min 100 (max 0 (r.risk_score.getD 50))
      margin_estimate := r.margin_estimate.getD "не определена".toList
      description := r.description.getD "Описание недоступно".toList }

/-- C7: `analyze_teaser` is total (any failure yields the fixed
safe-default triple instead of propagating), the returned risk score is
always clamped into `[0, 100]`, and missing response fields are replaced
by the fixed defaults. -/
theorem analyze_teaser_safe (call : Except Unit TeaserResponse) :
    (0 ≤ (analyze_teaser call).risk_score ∧
      (analyze_teaser call).risk_score ≤ 100) ∧
    (∀ err, call = .error err → analyze_teaser call = teaserSafeDefault) ∧
    (∀ r, call = .ok r →
      (∀ v, r.risk_score = some v →
        (analyze_teaser call).risk_score = min 100 (max 0 v)) ∧
      (r.risk_score = none → (analyze_teaser call).risk_score = 50) ∧
      (r.margin_estimate = none →
        (analyze_teaser call).margin_estimate = "не определена".toList) ∧
      (r.description = none →
        (analyze_teaser call).description = "Описание недоступно".toList)) := by
  refine ⟨?_, ?_, ?_⟩
  · cases call with
    | error err => simp [analyze_teaser, teaserSafeDefault]
    | ok r =>
      refine ⟨le_min (by norm_num) (le_max_left 0 _), min_le_left _ _⟩
  · rintro err rfl
    rfl
  · rintro r rfl
    refine ⟨fun v hv => by simp [analyze_teaser, hv],
      fun hn => by simp [analyze_teaser, hn],
      fun hm => by simp [analyze_teaser, hm],
      fun hd => by simp [analyze_teaser, hd]⟩

/-- Witness for `analyze_teaser_safe`: a failed call yields the safe
default; a response with out-of-range score and missing fields is clamped
and defaulted. -/
theorem analyze_teaser_safe_witness :
    (analyze_teaser (.error ()) = teaserSafeDefault) ∧
    ((analyze_teaser (.ok ⟨some 150, none, none⟩)).risk_score =
        min 100 (max 0 150) ∧
      (analyze_teaser (.ok ⟨some 150, none, none⟩)).margin_estimate =
        "не определена".toList) := by
  have h1 := (analyze_teaser_safe (.error ())).2.1 () rfl
  have h2 := (analyze_teaser_safe (.ok ⟨some 150, none, none⟩)).2.2
    ⟨some 150, none, none⟩ rfl
  exact ⟨h1, h2.1 150 rfl, h2.2.2.1 rfl⟩

/-- A character matched by the regex class `[а-яА-ЯёЁ]` in
`LosersService._extract_keywords_from_tender`. -/
def isCyrLetter (c : Char) : Bool :=
  ('а' ≤ c && c ≤ 'я') || ('А' ≤ c && c ≤ 'Я') || c = 'ё' || c = 'Ё'

/-- Maximal runs of `[а-яА-ЯёЁ]` of length ≥ 4, in order of occurrence:
the result of `re.findall(r'[а-яА-ЯёЁ]{4,}', title)` (the regex engine
greedily munches each maximal run and keeps it only when it has at least
four characters). `acc` is the reversed run currently being read. -/
def cyrTokensAux : List Char → List Char → List (List Char)
  | [], acc => if 4 ≤ acc.length then [acc.reverse] else []
  | c :: rest, acc =>
    if isCyrLetter c then cyrTokensAux rest (c :: acc)
    else (if 4 ≤ acc.length then [acc.reverse] else []) ++ cyrTokensAux rest []

/-- `re.findall(r'[а-яА-ЯёЁ]{4,}', s)`. -/
def cyrTokens (s : List Char) : List (List Char) := cyrTokensAux s []

/-- The fixed category keyword list of
`LosersService._extract_keywords_from_tender` (src/services/losers_service.py:350). -/
def category_keywords : List (List Char) :=
  (["компьютер", "сервер", "ноутбук", "монитор", "принтер",
    "оборудование", "техника", "мебель", "стол", "стул",
    "канцелярия", "бумага", "картридж",
    "автомобиль", "транспорт", "запчасти",
    "медицин", "лекарств", "препарат",
    "строитель", "ремонт", "материал",
    "программ", "софт", "лицензи",
    "услуги", "обслуживание", "сервис",
    "продукт", "питание", "продовольств"] : List String).map String.toList

/-- The stopword set filtered out of the fallback word tokens
(src/services/losers_service.py:371). -/
def keyword_stop_words : List (List Char) :=
  (["поставка", "закупка", "приобретение", "выполнение", "оказание",
    "года", "году"] : List String).map String.toList

/-- `LosersService._extract_keywords_from_tender`
(src/services/losers_service.py:345): category keywords occurring in the
lowercased title, in the fixed list's order; if none, the first five
Cyrillic word tokens (≥ 4 chars) with stopwords then removed; the result
is capped at 5. -/
def extract_keywords_from_tender (title : List Char) : List (List Char) :=
  let t := pyLower title
  let found := category_keywords.filter fun kw => strContains t kw
  let found₂ :=
    if found = [] then
      ((cyrTokens t).take 5).filter fun w => !(keyword_stop_words.contains w)
    else found
  found₂.take 5

/-- The keyword list actually stored on a lead client, from
`LosersService.create_client_from_loser` (src/services/losers_service.py:404):
the extracted keywords, or the single generic keyword when empty. -/
def client_keywords (title : List Char) : List (List Char) :=
  let k := extract_keywords_from_tender title
  if k = [] then ["тендер".toList] else k

/-- A title in which six category keywords occur. -/
def sixCategoryTitle : List Char :=
  "Компьютер сервер ноутбук монитор принтер оборудование".toList

/-- C6 counterexample: the claim says every category keyword occurring in
the lowercased title is returned, but with six occurring keywords the code
returns only the first five — `оборудование` occurs yet is dropped. -/
theorem extract_keywords_misses_sixth_category :
    "оборудование".toList ∈ category_keywords ∧
    strContains (pyLower sixCategoryTitle) "оборудование".toList = true ∧
    "оборудование".toList ∉ extract_keywords_from_tender sixCategoryTitle := by
  decide

/-- Modelled from the amended reading of the spec sentence: the first (in
fixed-list order) at most 5 category keywords occurring in the lowercased
title; if none occurs, the tokens among the first five maximal Cyrillic
runs (≥ 4 chars) that are not stopwords; and if that is also empty, the
single generic keyword. -/
def keywordsSpecAmended (title : List Char) : List (List Char) :=
  let t := pyLower title
  let cats := (category_keywords.filter fun kw => strContains t kw).take 5
  if cats = [] then
    let toks := ((cyrTokens t).take 5).filter fun w =>
      !(keyword_stop_words.contains w)
    if toks = [] then ["тендер".toList] else toks
  else cats

lemma keyword_branch (g : List Char) (found toks : List (List Char))
    (htokslen : toks.length ≤ 5) :
    ((if ((if found = [] then toks else found).take 5) = [] then [g]
        else (if found = [] then toks else found).take 5) =
      (if found.take 5 = [] then (if toks = [] then [g] else toks)
        else found.take 5)) ∧
    (if ((if found = [] then toks else found).take 5) = [] then [g]
        else (if found = [] then toks else found).take 5).length ≤ 5 ∧
    (if ((if found = [] then toks else found).take 5) = [] then [g]
        else (if found = [] then toks else found).take 5) ≠ [] := by
  by_cases hf : found = []
  · subst hf
    have htt : toks.take 5 = toks := List.take_of_length_le htokslen
    simp only [reduceIte, List.take_nil, htt]
    by_cases ht : toks = []
    · subst ht
      refine ⟨by simp, by simp, by simp⟩
    · rw [if_neg ht]
      exact ⟨trivial, htokslen, ht⟩
  · have hne : found.take 5 ≠ [] := by
      intro hc
      rcases List.take_eq_nil_iff.1 hc with h5 | h0
      · exact absurd h5 (by norm_num)
      · exact hf h0
    simp only [if_neg hf, if_neg hne]
    exact ⟨trivial, by simp, hne⟩

/-- C6 amended: the derived client keyword list equals the amended spec
description, has at most 5 entries, and is never empty. -/
theorem client_keywords_amended (title : List Char) :
    client_keywords title = keywordsSpecAmended title ∧
    (client_keywords title).length ≤ 5 ∧
    client_keywords title ≠ [] := by
  have h := keyword_branch ("тендер".toList)
    (category_keywords.filter fun kw => strContains (pyLower title) kw)
    (((cyrTokens (pyLower title)).take 5).filter fun w =>
      !(keyword_stop_words.contains w))
    (le_trans (List.length_filter_le _ _)
      (by simp))
  exact h

/-- Notification type enum (`src/models/notification.py`). -/
inductive NotificationType where
  | teaser
  | report
deriving DecidableEq, Repr

/-- Notification status enum (`src/models/notification.py`). -/
inductive NotificationStatus where
  | pending
  | sent
  | failed
  | bounced
deriving DecidableEq, Repr

/-- A row of the `notifications` table. -/
structure Notification where
  tender_id : Nat
  client_id : Nat
  notification_type : NotificationType
  status : NotificationStatus
  resend_id : Option (List Char)
  error_message : Option (List Char)
deriving DecidableEq, Repr

/-- A row of the `clients` table (`src/models/client.py`), with the
columns `matches_tender` reads. -/
structure Client where
  id : Nat
  email : List Char
  is_active : Bool
  keywords : List (List Char)
  min_price : Option ℚ
  max_price : Option ℚ
deriving DecidableEq, Repr

/-- Python truthiness of the nullable numeric price bounds (`None` and
`0` are falsy). -/
def truthyQ : Option ℚ → Bool
  | some m => decide (m ≠ 0)
  | none => false

/-- `Client.matches_tender` (src/models/client.py:77): inactive clients
never match; some keyword must occur case-insensitively in the title; a
known price must respect the truthy price bounds. -/
def matches_tender (c : Client) (title : List Char) (price : Option ℚ) :
    Bool :=
  if c.is_active = false then false
  else if (c.keywords.any fun kw =>
      strContains (pyLower title) (pyLower kw)) = false then false
  else
    match price with
    | some p =>
      if truthyQ c.min_price && decide (p < c.min_price.getD 0) then false
      else if truthyQ c.max_price && decide (c.max_price.getD 0 < p) then
        false
      else true
    | none => true

/-- The price argument `NotificationService.find_matching_clients` passes
to `matches_tender`: `float(tender.price) if tender.price else None`
(a zero price is falsy and becomes `None`). -/
def tenderPriceArg (t : Tender) : Option ℚ :=
  match t.price with
  | some p => if p = 0 then none else some p
  | none => none

/-- Whether a notification row is a `teaser` row for the given
(tender, client) pair. -/
def isTeaserFor (n : Notification) (tid cid : Nat) : Bool :=
  decide (n.tender_id = tid) && decide (n.client_id = cid) &&
    decide (n.notification_type = .teaser)

/-- `NotificationService.find_matching_clients`
(src/services/notification_service.py:27): active clients whose criteria
match, excluding any client that already has a `teaser`-type notification
row for this tender. -/
def find_matching_clients (t : Tender) (clients : List Client)
    (notifs : List Notification) : List Client :=
  ((clients.filter fun c => c.is_active).filter fun c =>
      matches_tender c t.title (tenderPriceArg t)).filter fun c =>
    !(notifs.any fun n => isTeaserFor n t.id c.id)

/-- One iteration of the send loop in
`NotificationService.send_teaser_notifications`: a `teaser` row is
recorded for the pair, then marked `sent` (with the provider id) or
`failed`; `emailResult` is the mail-provider oracle keyed by client id
(an exception during the send also leaves a `failed` row). -/
def sendStep (t : Tender) (emailResult : Nat → Option (List Char))
    (acc : List Notification × Nat) (c : Client) :
    List Notification × Nat :=
  let row : Notification :=
    { tender_id := t.id
      client_id := c.id
      notification_type := .teaser
      status := .pending
      resend_id := none
      error_message := none }
  match emailResult c.id with
  | some rid =>
    (acc.1 ++
      [{ row with
          status := .sent
          resend_id := some rid }],
      acc.2 + 1)
  | none =>
    (acc.1 ++
      [{ row with
          status := .failed
          error_message := some "Failed to send email".toList }],
      acc.2)

/-- `NotificationService.send_teaser_notifications`
(src/services/notification_service.py:66): returns the notification table
after the run together with the sent count. -/
def send_teaser_notifications (t : Tender) (clients : List Client)
    (notifs : List Notification)
    (emailResult : Nat → Option (List Char)) : List Notification × Nat :=
  (find_matching_clients t clients notifs).foldl
    (sendStep t emailResult) (notifs, 0)

/-- Number of `teaser` rows for a (tender, client) pair. -/
def teaserCount (notifs : List Notification) (tid cid : Nat) : Nat :=
  (notifs.filter fun n => isTeaserFor n tid cid).length

lemma sendFold_count (t : Tender) (o : Nat → Option (List Char))
    (cid : Nat) (ms : List Client) (hms : ∀ c ∈ ms, c.id ≠ cid)
    (acc : List Notification × Nat) :
    teaserCount (ms.foldl (sendStep t o) acc).1 t.id cid =
      teaserCount acc.1 t.id cid := by
  induction ms generalizing acc with
  | nil => rfl
  | cons c ms ih =>
    rw [List.foldl_cons,
      ih (fun d hd => hms d (List.mem_cons_of_mem c hd))]
    have hcid : c.id ≠ cid := hms c (List.mem_cons_self c ms)
    unfold sendStep teaserCount
    cases o c.id <;>
      simp [List.filter_append, isTeaserFor, hcid]

/-- C3: at most one teaser per (tender, client) pair. If the table
already holds a `teaser` row for the pair — in particular after a first
run of the notify flow recorded one — a further run of
`send_teaser_notifications` adds no second `teaser` row for that pair:
the pre-check in `find_matching_clients` excludes the client. -/
theorem teaser_at_most_once (t : Tender) (clients : List Client)
    (notifs : List Notification) (o : Nat → Option (List Char))
    (cid : Nat) (h : 1 ≤ teaserCount notifs t.id cid) :
    teaserCount (send_teaser_notifications t clients notifs o).1 t.id cid =
      teaserCount notifs t.id cid := by
  obtain ⟨n, hn⟩ :=
    List.exists_mem_of_ne_nil _
      (List.ne_nil_of_length_pos (show 0 < _ from h))
  have hn' := List.mem_filter.1 hn
  unfold send_teaser_notifications
  apply sendFold_count
  intro c hc hceq
  have hc' := List.mem_filter.1 hc
  have hnone : (notifs.any fun m => isTeaserFor m t.id c.id) = false := by
    have h2 := hc'.2
    rwa [Bool.not_eq_true'] at h2
  have : (notifs.any fun m => isTeaserFor m t.id c.id) = true :=
    List.any_eq_true.2 ⟨n, hn'.1, by rw [hceq]; exact hn'.2⟩
  rw [hnone] at this
  exact Bool.false_ne_true this

/-- Witness for `teaser_at_most_once`: a first run records the teaser row
for the pair, a second run leaves the pair's teaser count at one. -/
theorem teaser_at_most_once_witness :
    1 ≤ teaserCount
      (send_teaser_notifications
        (newTenderOfEntry
          ⟨"7".toList, "Поставка бумаги".toList, "u".toList, none, none⟩)
        [⟨2, "a@b.ru".toList, true, ["бумаг".toList], none, none⟩]
        [] (fun _ => some "mid".toList)).1
      (newTenderOfEntry
        ⟨"7".toList, "Поставка бумаги".toList, "u".toList, none, none⟩).id
      2 ∧
    teaserCount
      (send_teaser_notifications
        (newTenderOfEntry
          ⟨"7".toList, "Поставка бумаги".toList, "u".toList, none, none⟩)
        [⟨2, "a@b.ru".toList, true, ["бумаг".toList], none, none⟩]
        (send_teaser_notifications
          (newTenderOfEntry
            ⟨"7".toList, "Поставка бумаги".toList, "u".toList, none, none⟩)
          [⟨2, "a@b.ru".toList, true, ["бумаг".toList], none, none⟩]
          [] (fun _ => some "mid".toList)).1
        (fun _ => some "mid2".toList)).1
      (newTenderOfEntry
        ⟨"7".toList, "Поставка бумаги".toList, "u".toList, none, none⟩).id
      2 =
    teaserCount
      (send_teaser_notifications
        (newTenderOfEntry
          ⟨"7".toList, "Поставка бумаги".toList, "u".toList, none, none⟩)
        [⟨2, "a@b.ru".toList, true, ["бумаг".toList], none, none⟩]
        [] (fun _ => some "mid".toList)).1
      (newTenderOfEntry
        ⟨"7".toList, "Поставка бумаги".toList, "u".toList, none, none⟩).id
      2 := by
  refine ⟨by decide, teaser_at_most_once _ _ _ _ _ (by decide)⟩

/-- The external world as seen by `DocumentService.process_tender`
(src/services/document_service.py:465): the outcome of each page fetch
(`None` models a fetch that failed after the 404/5xx/timeout retry policy
of `_fetch_tender_page`), the HTML-parsing helpers as functions, and the
per-link download/extraction outcomes. -/
structure FetchEnv where
  commonInfo : Option (List Char)
  extractDeadline : List Char → Option Nat
  documentsPage : Option (List Char)
  altPages : List (Option (List Char))
  originalPage : Option (List Char)
  extractLinks : List Char → List (List Char)
  download : List Char → Option (List Char × List Char)
  extractText : List Char → List Char → List Char

/-- First successful fetch in the `for alt_url in alternatives` loop. -/
def firstSome : List (Option (List Char)) → Option (List Char)
  | [] => none
  | some h :: _ => some h
  | none :: rest => firstSome rest

/-- Python `sep.join(texts)`. -/
def joinSep (sep : List Char) : List (List Char) → List Char
  | [] => []
  | [x] => x
  | x :: xs => x ++ sep ++ joinSep sep xs

/-- The per-file header marker `--- filename ---\n` prepended to each
extracted document text. -/
def docHeader (filename text : List Char) : List Char :=
  "--- ".toList ++ filename ++ " ---".toList ++ ['\n'] ++ text

/-- The deadline update of `process_tender`: when the general-info page
was fetched and a deadline extracted, it is written onto the tender. -/
def tenderWithDeadline (t : Tender) (env : FetchEnv) : Tender :=
  match env.commonInfo with
  | some h =>
    match env.extractDeadline h with
    | some d => { t with deadline := some d }
    | none => t
  | none => t

/-- The documents-page HTML `process_tender` ends up with: the primary
documents URL, else the first working alternative URL variant, else the
originally supplied URL. -/
def pageHTML (env : FetchEnv) : Option (List Char) :=
  match env.documentsPage with
  | some h => some h
  | none =>
    match firstSome env.altPages with
    | some h => some h
    | none => env.originalPage

/-- `DocumentService.process_tender`: extract the deadline from the
general-info page when available; fetch the documents page, falling back
to the alternative URL variants and then the originally supplied URL; on
total failure mark the tender `DOWNLOADED` with empty text and report
failure; otherwise extract links, download (first 10) and extract text,
join with the header markers, and mark `DOWNLOADED`. -/
def process_tender (t : Tender) (env : FetchEnv) : Tender × Bool :=
  let t₁ := tenderWithDeadline t env
  match pageHTML env with
  | none => ({ t₁ with status := .DOWNLOADED, raw_text := some [] }, false)
  | some h =>
    let links := env.extractLinks h
    if links = [] then
      ({ t₁ with status := .DOWNLOADED, raw_text := some [] }, true)
    else
      let texts := (links.take 10).filterMap fun u =>
        match env.download u with
        | none => none
        | some cf =>
          let txt := env.extractText cf.1 cf.2
          if txt = [] then none else some (docHeader cf.2 txt)
      ({ t₁ with
          status := .DOWNLOADED
          raw_text := some (joinSep "\n\n".toList texts) }, true)

/-- One iteration of `DocumentService.process_new_tenders`' counting loop:
a per-tender outcome is `.ok b` (the `process_tender` return value) or
`.error msg` (an exception raised while processing that tender, caught by
the `try`/`except` inside the loop). -/
def batchStep (n : Nat) (r : Except (List Char) Bool) : Nat :=
  match r with
  | .ok true => n + 1
  | _ => n

/-- `DocumentService.process_new_tenders`' result over the per-tender
outcomes: total on any outcome list — a per-tender exception is absorbed
by the loop's failure boundary instead of escaping the batch. -/
def process_new_tenders (outcomes : List (Except (List Char) Bool)) : Nat :=
  outcomes.foldl batchStep 0

lemma firstSome_eq_none {l : List (Option (List Char))}
    (h : ∀ a ∈ l, a = none) : firstSome l = none := by
  induction l with
  | nil => rfl
  | cons a rest ih =>
    cases a with
    | none => exact ih fun b hb => h b (List.mem_cons_of_mem _ hb)
    | some x => exact absurd (h _ (List.mem_cons_self _ _)) (by simp)

/-- Whether a per-tender batch outcome is a graceful success
(`process_tender` returned `True`). -/
def isOkTrue : Except (List Char) Bool → Bool
  | .ok true => true
  | _ => false

lemma foldl_batchStep (outcomes : List (Except (List Char) Bool)) :
    ∀ n, outcomes.foldl batchStep n =
      n + (outcomes.filter isOkTrue).length := by
  induction outcomes with
  | nil => intro n; simp
  | cons r rest ih =>
    intro n
    rw [List.foldl_cons]
    cases r with
    | error e => rw [ih]; simp [batchStep, isOkTrue, List.filter_cons]
    | ok b =>
      cases b with
      | true =>
        rw [ih]
        simp only [batchStep, isOkTrue, List.filter_cons, if_pos rfl]
        simp
        omega
      | false => rw [ih]; simp [batchStep, isOkTrue, List.filter_cons]

/-- C5: if the documents-page fetch, every alternative URL variant, and
the originally supplied URL all fail, `process_tender` marks the tender
`DOWNLOADED` with empty raw text and returns `false`; and the batch
driver's count is defined for every outcome list — exceptional per-tender
outcomes are counted out instead of escaping. -/
theorem unreachable_page_degrades (t : Tender) (env : FetchEnv)
    (hdoc : env.documentsPage = none)
    (halt : ∀ a ∈ env.altPages, a = none)
    (horig : env.originalPage = none) :
    (process_tender t env).1.status = .DOWNLOADED ∧
    (process_tender t env).1.raw_text = some [] ∧
    (process_tender t env).2 = false ∧
    (∀ outcomes : List (Except (List Char) Bool),
      process_new_tenders outcomes =
        (outcomes.filter isOkTrue).length) := by
  have hhtml : pageHTML env = none := by
    unfold pageHTML
    rw [hdoc, firstSome_eq_none halt, horig]
  have hkey : (process_tender t env).1.status = TenderStatus.DOWNLOADED ∧
      (process_tender t env).1.raw_text = some [] ∧
      (process_tender t env).2 = false := by
    unfold process_tender
    rw [hhtml]
    exact ⟨rfl, rfl, rfl⟩
  exact ⟨hkey.1, hkey.2.1, hkey.2.2, fun outcomes => by
    simpa [process_new_tenders] using foldl_batchStep outcomes 0⟩

/-- A fetch environment in which every page fetch fails. -/
def envAllFail : FetchEnv :=
  { commonInfo := none
    extractDeadline := fun _ => none
    documentsPage := none
    altPages := [none, none, none]
    originalPage := none
    extractLinks := fun _ => []
    download := fun _ => none
    extractText := fun _ _ => [] }

/-- A fresh tender used as concrete input. -/
def wTender : Tender :=
  newTenderOfEntry ⟨"9".toList, "Тендер".toList, "u".toList, none, none⟩

/-- Witness for `unreachable_page_degrades` at a concrete tender and an
all-failing fetch environment. -/
theorem unreachable_page_degrades_witness :
    (process_tender wTender envAllFail).1.status = .DOWNLOADED ∧
    (process_tender wTender envAllFail).1.raw_text = some [] ∧
    (process_tender wTender envAllFail).2 = false := by
  have h := unreachable_page_degrades wTender envAllFail rfl (by decide) rfl
  exact ⟨h.1, h.2.1, h.2.2.1⟩

/-- The per-tender body of `analyze_tenders_job`
(src/scheduler/jobs.py:84), applied to a tender selected in `DOWNLOADED`
status: a tender with falsy text (`None` or empty) is force-advanced to
`ANALYZED` with the fixed placeholder risk/margin/description; otherwise
the teaser analysis result is written and the status set to `ANALYZED`. -/
def analyze_step (t : Tender) (call : Except Unit TeaserResponse) :
    Tender :=
  if t.raw_text = none ∨ t.raw_text = some [] then
    { t with
        status := .ANALYZED
        risk_score := some 50
        margin_estimate := some "не определена".toList
        teaser_description :=
          some "Документация недоступна для анализа".toList }
  else
    let a := analyze_teaser call
    { t with
        risk_score := some a.risk_score
        margin_estimate := some a.margin_estimate
        teaser_description := some a.description
        status := .ANALYZED }

/-- The tender update of
`NotificationService.process_analyzed_tenders`
(src/services/notification_service.py:166): after the send loop the
tender is unconditionally advanced to `NOTIFIED`. -/
def notify_step (t : Tender) : Tender :=
  { t with status := .NOTIFIED }

/-- The per-tender body of `cleanup_stale_data_job`
(src/scheduler/cleanup.py:46): heavy fields are nulled, nothing else is
assigned. -/
def cleanup_step (t : Tender) : Tender :=
  { t with raw_text := none, deep_analysis := none }

/-- The tender update of
`PaymentService._process_successful_payment`
(src/services/payment_service.py:199,222): the deep analysis is stored,
the raw text cleared, and the status set to `SOLD`. -/
def tender_after_payment (t : Tender) (deepResult : List Char) : Tender :=
  { t with
      deep_analysis := some deepResult
      raw_text := none
      status := .SOLD }

lemma process_tender_status (t : Tender) (env : FetchEnv) :
    (process_tender t env).1.status = .DOWNLOADED := by
  unfold process_tender
  cases pageHTML env with
  | none => rfl
  | some h =>
    by_cases hl : env.extractLinks h = [] <;> simp [hl]

lemma analyze_step_status (t : Tender) (call : Except Unit TeaserResponse) :
    (analyze_step t call).status = .ANALYZED := by
  unfold analyze_step
  split <;> rfl

/-- C2: monotonic status progression. Each job's per-tender update, run
on a tender eligible for it, moves the status exactly one step forward
along `NEW→DOWNLOADED→ANALYZED→NOTIFIED→SOLD`; the payment success
update assigns `SOLD` (never a rank decrease from any reachable status);
and cleanup nulls the heavy fields without touching the status. -/
theorem monotonic_status (t : Tender) (env : FetchEnv)
    (call : Except Unit TeaserResponse) (deep : List Char) :
    (t.status = .NEW →
      (process_tender t env).1.status = .DOWNLOADED ∧
      statusRank t.status < statusRank (process_tender t env).1.status) ∧
    (t.status = .DOWNLOADED →
      (analyze_step t call).status = .ANALYZED ∧
      statusRank t.status < statusRank (analyze_step t call).status) ∧
    (t.status = .ANALYZED →
      (notify_step t).status = .NOTIFIED ∧
      statusRank t.status < statusRank (notify_step t).status) ∧
    ((tender_after_payment t deep).status = .SOLD ∧
      statusRank t.status ≤ statusRank (tender_after_payment t deep).status) ∧
    ((cleanup_step t).status = t.status ∧
      (cleanup_step t).raw_text = none ∧
      (cleanup_step t).deep_analysis = none) := by
  refine ⟨?_, ?_, ?_, ⟨rfl, ?_⟩, rfl, rfl, rfl⟩
  · intro h
    have hs := process_tender_status t env
    exact ⟨hs, by rw [h, hs]; decide⟩
  · intro h
    have hs := analyze_step_status t call
    exact ⟨hs, by rw [h, hs]; decide⟩
  · intro h
    have hs : (notify_step t).status = .NOTIFIED := rfl
    exact ⟨hs, by rw [h, hs]; decide⟩
  · have hs : (tender_after_payment t deep).status = .SOLD := rfl
    rw [hs]
    cases h : t.status <;> decide

/-- Witness for `monotonic_status` at concrete tenders in each eligible
status. -/
theorem monotonic_status_witness :
    ((process_tender wTender envAllFail).1.status = .DOWNLOADED ∧
      statusRank wTender.status <
        statusRank (process_tender wTender envAllFail).1.status) ∧
    ((analyze_step { wTender with status := .DOWNLOADED }
        (.error ())).status = .ANALYZED ∧
      statusRank TenderStatus.DOWNLOADED <
        statusRank (analyze_step { wTender with status := .DOWNLOADED }
          (.error ())).status) ∧
    ((notify_step { wTender with status := .ANALYZED }).status =
        .NOTIFIED) ∧
    ((tender_after_payment wTender "анализ".toList).status = .SOLD) ∧
    ((cleanup_step wTender).status = wTender.status) := by
  refine ⟨?_, ?_, ?_, ?_, ?_⟩
  · exact (monotonic_status wTender envAllFail (.error ())
      "анализ".toList).1 rfl
  · exact (monotonic_status { wTender with status := .DOWNLOADED }
      envAllFail (.error ()) "анализ".toList).2.1 rfl
  · exact ((monotonic_status { wTender with status := .ANALYZED }
      envAllFail (.error ()) "анализ".toList).2.2.1 rfl).1
  · exact (monotonic_status wTender envAllFail (.error ())
      "анализ".toList).2.2.2.1.1
  · exact (monotonic_status wTender envAllFail (.error ())
      "анализ".toList).2.2.2.2.1

/-- Payment status enum (`src/models/payment.py`). -/
inductive PaymentStatus where
  | pending
  | waiting_for_capture
  | succeeded
  | canceled
  | refunded
deriving DecidableEq, Repr

/-- A row of the `payments` table, with the columns
`PaymentService.handle_webhook` reads or writes. -/
structure Payment where
  yookassa_id : List Char
  tender_id : Nat
  client_id : Nat
  status : PaymentStatus
  report_sent : Bool
deriving DecidableEq, Repr

/-- The persistent state the webhook handler touches, plus a log of the
executed deep-audit-and-report-send sequences (one entry, the gateway
transaction id, per execution of `_process_successful_payment`'s
analyse/generate/send steps). -/
structure PayState where
  payments : List Payment
  tenders : List Tender
  effects : List (List Char)
deriving DecidableEq, Repr

/-- `PaymentService._process_successful_payment`
(src/services/payment_service.py:168): loads the tender, runs the deep
audit (`deepResult` is the AI collaborator's output) and stores it,
generates and emails the report (`emailOk` tells whether the mail
provider returned an id; only then is `report_sent` set), then clears the
raw text and sets the tender `SOLD`. The function never reads
`report_sent`. A missing tender makes `scalar_one` raise before any of
these steps, leaving the state unchanged here. -/
def process_successful_payment (st : PayState) (p : Payment)
    (deepResult : List Char) (emailOk : Bool) : PayState :=
  match st.tenders.find? fun u => u.id = p.tender_id with
  | none => st
  | some t =>
    { payments :=
        if emailOk then
          st.payments.map fun q =>
            if q.yookassa_id = p.yookassa_id then
              { q with report_sent := true }
            else q
        else st.payments
      tenders := st.tenders.map fun u =>
        if u.id = t.id then tender_after_payment t deepResult else u
      effects := st.effects ++ [p.yookassa_id] }

/-- `PaymentService.handle_webhook` (src/services/payment_service.py:126):
look the payment up by gateway id (unknown id → `False`), write the
incoming status onto it, and when the event is `payment.succeeded` with
status `succeeded`, run `_process_successful_payment`. -/
def handle_webhook (st : PayState) (event : List Char) (pid : List Char)
    (newStatus : PaymentStatus) (deepResult : List Char) (emailOk : Bool) :
    PayState × Bool :=
  match st.payments.find? fun q => q.yookassa_id = pid with
  | none => (st, false)
  | some p =>
    let st₁ :=
      { st with
          payments := st.payments.map fun q =>
            if q.yookassa_id = pid then { q with status := newStatus }
            else q }
    let p₁ := { p with status := newStatus }
    if event = "payment.succeeded".toList ∧ newStatus = .succeeded then
      (process_successful_payment st₁ p₁ deepResult emailOk, true)
    else (st₁, true)

/-- Number of logged deep-audit-and-send executions for a gateway id. -/
def effectCount (st : PayState) (pid : List Char) : Nat :=
  (st.effects.filter fun x => x = pid).length

/-- The tender of the counterexample scenario. -/
def c1Tender : Tender :=
  { wTender with
      id := 1
      status := .NOTIFIED
      raw_text := some "документация".toList }

/-- Initial state: one pending payment `p1` on tender 1. -/
def c1State : PayState :=
  { payments := [⟨"p1".toList, 1, 2, .pending, false⟩]
    tenders := [c1Tender]
    effects := [] }

/-- First delivery of the `payment.succeeded` event for `p1`. -/
def c1Run1 : PayState × Bool :=
  handle_webhook c1State "payment.succeeded".toList "p1".toList
    .succeeded "анализ".toList true

/-- Second (duplicate) delivery of the same event. -/
def c1Run2 : PayState × Bool :=
  handle_webhook c1Run1.1 "payment.succeeded".toList "p1".toList
    .succeeded "анализ".toList true

/-- C1 counterexample: after the first delivery the payment is
`succeeded` with `report_sent = true`, yet a repeat delivery of the same
event runs the deep-audit-and-send sequence a second time — the
report-sent flag is never consulted, so the side effect is not
"exactly one per payment id". -/
theorem webhook_duplicate_retriggers :
    effectCount c1Run1.1 "p1".toList = 1 ∧
    (c1Run1.1.payments.all fun q =>
      decide (q.status = .succeeded) && q.report_sent) = true ∧
    effectCount c1Run2.1 "p1".toList = 2 := by
  decide

/-- C1 amended: every delivery of a `payment.succeeded` webhook event for
a known gateway transaction id sets that payment's status to `succeeded`,
appends exactly one deep-audit-and-send execution for that id, and sets
`report_sent` to true when the send succeeds; the flag never suppresses
a repeat delivery. -/
theorem webhook_succeeded_amended (st : PayState) (pid deep : List Char)
    (emailOk : Bool) (p : Payment) (t : Tender)
    (hfind : (st.payments.find? fun q => q.yookassa_id = pid) = some p)
    (ht : (st.tenders.find? fun u => u.id = p.tender_id) = some t) :
    (handle_webhook st "payment.succeeded".toList pid .succeeded deep
        emailOk).2 = true ∧
    (handle_webhook st "payment.succeeded".toList pid .succeeded deep
        emailOk).1.effects = st.effects ++ [pid] ∧
    (∀ q ∈ (handle_webhook st "payment.succeeded".toList pid .succeeded
        deep emailOk).1.payments,
      q.yookassa_id = pid →
        q.status = .succeeded ∧ (emailOk = true → q.report_sent = true)) := by
  have hpid : p.yookassa_id = pid := by
    have := List.find?_some hfind
    exact of_decide_eq_true this
  simp only [handle_webhook, hfind]
  rw [if_pos ⟨by trivial, by trivial⟩]
  simp only [process_successful_payment]
  rw [ht]
  refine ⟨by trivial, by simp [hpid], ?_⟩
  intro q hq hqid
  cases emailOk with
  | true =>
    rw [if_pos rfl] at hq
    obtain ⟨q₁, hq₁, rfl⟩ := List.mem_map.1 hq
    obtain ⟨q₀, hq₀, rfl⟩ := List.mem_map.1 hq₁
    by_cases h0 : q₀.yookassa_id = pid
    · refine ⟨?_, fun _ => ?_⟩ <;> simp [h0, hpid]
    · exfalso
      rw [if_neg h0] at hqid
      rw [hpid, if_neg h0] at hqid
      exact h0 hqid
  | false =>
    rw [if_neg (by decide : ¬false = true)] at hq
    obtain ⟨q₀, hq₀, rfl⟩ := List.mem_map.1 hq
    by_cases h0 : q₀.yookassa_id = pid
    · refine ⟨?_, fun hc => absurd hc (by decide)⟩
      simp [h0]
    · exfalso
      rw [if_neg h0] at hqid
      exact h0 hqid

/-- Witness for `webhook_succeeded_amended` at the concrete scenario
state. -/
theorem webhook_succeeded_amended_witness :
    c1Run1.2 = true ∧
    c1Run1.1.effects = c1State.effects ++ ["p1".toList] ∧
    (∀ q ∈ c1Run1.1.payments,
      q.yookassa_id = "p1".toList →
        q.status = .succeeded ∧ (true = true → q.report_sent = true)) := by
  have h := webhook_succeeded_amended c1State "p1".toList "анализ".toList
    true ⟨"p1".toList, 1, 2, .pending, false⟩ c1Tender (by decide) (by decide)
  exact h

/-- Python slice `s[a:b]` for natural indices (clipped at the ends). -/
def pySlice (s : List Char) (a b : Nat) : List Char :=
  (s.drop a).take (b - a)

/-- Python `s.rfind(sub, lo, hi)` restricted to natural bounds: the
greatest position `p` with `lo ≤ p`, `p + len(sub) ≤ hi` and `sub`
occurring at `p`; `none` when there is no such position (Python returns
`-1` there). -/
def rfindIn (s sub : List Char) (lo hi : Nat) : Option Nat :=
  ((List.range (s.length + 1)).filter fun q =>
    decide (lo ≤ q) && decide (q + sub.length ≤ hi) && matchesAt s sub q
    ).getLast?

lemma mem_of_getLast?_eq {α : Type} {l : List α} {a : α}
    (h : l.getLast? = some a) : a ∈ l := by
  obtain ⟨hne, rfl⟩ :=
    List.mem_getLast?_eq_getLast (show a ∈ l.getLast? from h)
  exact List.getLast_mem hne

lemma rfindIn_bounds {s sub : List Char} {lo hi p : Nat}
    (h : rfindIn s sub lo hi = some p) :
    lo ≤ p ∧ p + sub.length ≤ hi := by
  unfold rfindIn at h
  have hmem := mem_of_getLast?_eq h
  have hpred := (List.mem_filter.1 hmem).2
  simp only [Bool.and_eq_true, decide_eq_true_eq] at hpred
  exact ⟨hpred.1.1, hpred.1.2⟩

/-- The `end` computed by one iteration of
`AIService._split_into_chunks` (src/services/ai_service.py:202) at the
default parameters `chunk_size = 12000`, `overlap = 500` — the only
values the service calls it with. When the hard cut `start + 12000` lies
inside the text, the cut is moved back to just after a paragraph break
found in the last 1000 characters of the window, else just after a
sentence break found in the last 500, else kept. -/
def chunkEnd (text : List Char) (start : Nat) : Nat :=
  if start + 12000 < text.length then
    match rfindIn text ['\n', '\n'] (start + 12000 - 1000) (start + 12000) with
    | some p => p + 1
    | none =>
      match rfindIn text ['.', ' '] (start + 12000 - 500) (start + 12000) with
      | some p => p + 1
      | none => start + 12000
  else start + 12000

lemma chunkEnd_lower (text : List Char) (start : Nat) :
    start + 11001 ≤ chunkEnd text start := by
  unfold chunkEnd
  split
  · rcases h1 : rfindIn text ['\n', '\n'] (start + 12000 - 1000)
        (start + 12000) with _ | p
    · rcases h2 : rfindIn text ['.', ' '] (start + 12000 - 500)
          (start + 12000) with _ | q
      · simp [h1, h2]
      · have := (rfindIn_bounds h2).1
        simp only [h1, h2]
        omega
    · have := (rfindIn_bounds h1).1
      simp only [h1]
      omega
  · omega

lemma chunkEnd_upper (text : List Char) (start : Nat) :
    chunkEnd text start ≤ start + 12000 := by
  unfold chunkEnd
  split
  · rcases h1 : rfindIn text ['\n', '\n'] (start + 12000 - 1000)
        (start + 12000) with _ | p
    · rcases h2 : rfindIn text ['.', ' '] (start + 12000 - 500)
          (start + 12000) with _ | q
      · simp [h1, h2]
      · have := (rfindIn_bounds h2).2
        simp only [h1, h2, List.length_cons, List.length_nil] at this ⊢
        omega
    · have := (rfindIn_bounds h1).2
      simp only [h1, List.length_cons, List.length_nil] at this ⊢
      omega
  · omega

/-- The `(start, end)` pairs produced by the chunking loop of
`_split_into_chunks` from a given start: the loop runs while
`start < len(text)`, emits `text[start:end]` and continues at
`end - overlap`. -/
def chunkSpans (text : List Char) (start : Nat) : List (Nat × Nat) :=
  if h : start < text.length then
    (start, chunkEnd text start) :: chunkSpans text (chunkEnd text start - 500)
  else []
termination_by text.length - start
decreasing_by
  have hb := chunkEnd_lower text start
  omega

/-- `AIService._split_into_chunks` at its default parameters: a text of
at most 12000 characters is a single chunk; otherwise the loop's spans
are sliced out of the text. -/
def split_into_chunks (text : List Char) : List (List Char) :=
  if text.length ≤ 12000 then [text]
  else (chunkSpans text 0).map fun se => pySlice text se.1 se.2

lemma chunkSpans_cover (text : List Char) (i : Nat) :
    ∀ fuel start, text.length - start ≤ fuel → start ≤ i →
      i < text.length →
      ∃ se ∈ chunkSpans text start, se.1 ≤ i ∧ i < se.2 := by
  intro fuel
  induction fuel with
  | zero => intro start hf hsi hi; omega
  | succ n ih =>
    intro start hf hsi hi
    have hlt : start < text.length := lt_of_le_of_lt hsi hi
    rw [chunkSpans, dif_pos hlt]
    by_cases hend : i < chunkEnd text start
    · exact ⟨(start, chunkEnd text start), List.mem_cons_self _ _, hsi, hend⟩
    · push_neg at hend
      have hle := chunkEnd_lower text start
      obtain ⟨se, hmem, h1, h2⟩ :=
        ih (chunkEnd text start - 500) (by omega) (by omega) hi
      exact ⟨se, List.mem_cons_of_mem _ hmem, h1, h2⟩

lemma chunkSpans_nil_of_ge {text : List Char} {start : Nat}
    (h : text.length ≤ start) : chunkSpans text start = [] := by
  rw [chunkSpans, dif_neg (by omega)]

lemma chunkSpans_last (text : List Char) :
    ∀ fuel start, text.length - start ≤ fuel →
      ∀ se, (chunkSpans text start).getLast? = some se →
        text.length ≤ se.2 := by
  intro fuel
  induction fuel with
  | zero =>
    intro start hf se hlast
    rw [chunkSpans_nil_of_ge (by omega)] at hlast
    cases hlast
  | succ n ih =>
    intro start hf se hlast
    by_cases hlt : start < text.length
    · rw [chunkSpans, dif_pos hlt] at hlast
      have hle := chunkEnd_lower text start
      cases hrest : chunkSpans text (chunkEnd text start - 500) with
      | nil =>
        rw [hrest] at hlast
        have hse : se = (start, chunkEnd text start) := by
          simpa using hlast.symm
        have hstop : text.length ≤ chunkEnd text start - 500 := by
          by_contra hc
          push_neg at hc
          rw [chunkSpans, dif_pos hc] at hrest
          cases hrest
        rw [hse]
        omega
      | cons a rest =>
        rw [hrest, List.getLast?_cons_cons] at hlast
        exact ih (chunkEnd text start - 500) (by omega) se
          (hrest ▸ hlast)
    · rw [chunkSpans_nil_of_ge (by omega)] at hlast
      cases hlast

lemma chunkSpans_head {text : List Char} {start : Nat}
    (h : start < text.length) :
    (chunkSpans text start).head? = some (start, chunkEnd text start) := by
  rw [chunkSpans, dif_pos h]
  rfl

lemma chunkSpans_chain (text : List Char) :
    ∀ fuel start, text.length - start ≤ fuel →
      List.Chain'
        (fun a b => b.1 = a.2 - 500 ∧ a.1 < b.1 ∧ b.1 < a.2)
        (chunkSpans text start) := by
  intro fuel
  induction fuel with
  | zero =>
    intro start hf
    rw [chunkSpans_nil_of_ge (by omega)]
    exact List.chain'_nil
  | succ n ih =>
    intro start hf
    by_cases hlt : start < text.length
    · rw [chunkSpans, dif_pos hlt]
      have hle := chunkEnd_lower text start
      rw [List.chain'_cons']
      refine ⟨?_, ih (chunkEnd text start - 500) (by omega)⟩
      intro b hb
      by_cases hnext : chunkEnd text start - 500 < text.length
      · rw [chunkSpans_head hnext] at hb
        have hb' : b = (chunkEnd text start - 500,
            chunkEnd text (chunkEnd text start - 500)) := by
          simpa using hb.symm
        rw [hb']
        refine ⟨rfl, by omega, by omega⟩
      · rw [chunkSpans_nil_of_ge (by omega)] at hb
        cases hb
    · rw [chunkSpans_nil_of_ge (by omega)]
      exact List.chain'_nil

lemma chunkSpans_width (text : List Char) :
    ∀ fuel start, text.length - start ≤ fuel →
      ∀ se ∈ chunkSpans text start,
        se.1 < se.2 ∧ se.2 ≤ se.1 + 12000 := by
  intro fuel
  induction fuel with
  | zero =>
    intro start hf se hse
    rw [chunkSpans_nil_of_ge (by omega)] at hse
    cases hse
  | succ n ih =>
    intro start hf se hse
    by_cases hlt : start < text.length
    · rw [chunkSpans, dif_pos hlt] at hse
      have hle := chunkEnd_lower text start
      have hub := chunkEnd_upper text start
      rcases List.mem_cons.1 hse with hhd | htl
      · rw [hhd]
        exact ⟨by omega, by omega⟩
      · exact ih (chunkEnd text start - 500) (by omega) se htl
    · rw [chunkSpans_nil_of_ge (by omega)] at hse
      cases hse

/-- C4: chunk-split coverage. A text within the 12000-character threshold
is returned as the single chunk equal to the input. A longer text is cut
along the loop's spans: the chunks are exactly the slices of those spans,
the first span starts at 0, each next span starts exactly `overlap = 500`
before the previous span's end (so strictly inside it — no gaps), every
text position is covered by some span, and the last span reaches the end
of the input, its chunk being the final tail of the text. -/
theorem split_chunks_coverage (text : List Char) :
    (text.length ≤ 12000 → split_into_chunks text = [text]) ∧
    (12000 < text.length →
      chunkSpans text 0 ≠ [] ∧
      split_into_chunks text =
        (chunkSpans text 0).map (fun se => pySlice text se.1 se.2) ∧
      (chunkSpans text 0).head? = some (0, chunkEnd text 0) ∧
      List.Chain' (fun a b => b.1 = a.2 - 500 ∧ b.1 < a.2)
        (chunkSpans text 0) ∧
      (∀ i, i < text.length →
        ∃ se ∈ chunkSpans text 0, se.1 ≤ i ∧ i < se.2) ∧
      (∀ se, (chunkSpans text 0).getLast? = some se →
        text.length ≤ se.2 ∧ pySlice text se.1 se.2 = text.drop se.1)) := by
  constructor
  · intro h
    unfold split_into_chunks
    rw [if_pos h]
  · intro h
    refine ⟨?_, ?_, ?_, ?_, ?_, ?_⟩
    · rw [chunkSpans, dif_pos (by omega)]
      simp
    · unfold split_into_chunks
      rw [if_neg (by omega)]
    · exact chunkSpans_head (by omega)
    · exact List.Chain'.imp (fun a b hab => ⟨hab.1, hab.2.2⟩)
        (chunkSpans_chain text text.length 0 (by omega))
    · exact fun i hi =>
        chunkSpans_cover text i text.length 0 (by omega) (Nat.zero_le i) hi
    · intro se hse
      have h1 := chunkSpans_last text text.length 0 (by omega) se hse
      refine ⟨h1, ?_⟩
      unfold pySlice
      apply List.take_of_length_le
      rw [List.length_drop]
      omega

/-- Witness for `split_chunks_coverage`: a one-character text is returned
whole, and a 12001-character text goes through the spans path. -/
theorem split_chunks_coverage_witness :
    (("а".toList).length ≤ 12000 ∧
      split_into_chunks "а".toList = ["а".toList]) ∧
    (12000 < (List.replicate 12001 'a').length ∧
      chunkSpans (List.replicate 12001 'a') 0 ≠ [] ∧
      split_into_chunks (List.replicate 12001 'a') =
        (chunkSpans (List.replicate 12001 'a') 0).map
          (fun se => pySlice (List.replicate 12001 'a') se.1 se.2)) := by
  constructor
  · exact ⟨by decide, (split_chunks_coverage ("а".toList)).1 (by decide)⟩
  · have h := (split_chunks_coverage (List.replicate 12001 'a')).2
      (by rw [List.length_replicate]; omega)
    exact ⟨by rw [List.length_replicate]; omega, h.1, h.2.1⟩

/-- C10: the chunking loop terminates — its start positions strictly
increase from span to span (each new start is 500 before an end that
exceeds the old start by at least 11001) — and every chunk it returns,
as well as every span it cuts, is at most 12000 characters wide. -/
theorem split_chunks_bounded (text : List Char) :
    (∀ c ∈ split_into_chunks text, c.length ≤ 12000) ∧
    List.Chain' (fun a b => a.1 < b.1) (chunkSpans text 0) ∧
    (∀ se ∈ chunkSpans text 0, se.1 < se.2 ∧ se.2 ≤ se.1 + 12000) := by
  refine ⟨?_, ?_, ?_⟩
  · intro c hc
    unfold split_into_chunks at hc
    by_cases h : text.length ≤ 12000
    · rw [if_pos h] at hc
      have : c = text := by simpa using hc
      rw [this]
      exact h
    · rw [if_neg h] at hc
      obtain ⟨se, hse, rfl⟩ := List.mem_map.1 hc
      have hw := chunkSpans_width text text.length 0 (by omega) se hse
      unfold pySlice
      calc ((text.drop se.1).take (se.2 - se.1)).length ≤ se.2 - se.1 := by
            simp
        _ ≤ 12000 := by omega
  · exact List.Chain'.imp (fun a b hab => hab.2.1)
      (chunkSpans_chain text text.length 0 (by omega))
  · exact fun se hse => chunkSpans_width text text.length 0 (by omega) se hse

end GovSniper
